import Mathlib

/-
Verification of the path-and-centrality analysis engine implemented in
Code/Protein_Network_Analyzer.py.

The Python code is shallowly embedded as Lean definitions:

* the networkx undirected graph view becomes the structure `Graph`: an
  explicit node list together with a boolean adjacency function;
* nx.all_shortest_paths is embedded by enumerating the walks of the first
  length at which the pair is connected (those walks are exactly the
  minimum-edge-count paths); the NetworkXNoPath exception caught by
  find_all_shortest_paths becomes the `none` result of an `Option`;
* Python dictionaries keyed by (biopax type, node) become association
  lists: `table_add` models a defaultdict increment and `table_get` models
  lookup with default 0; Python float arithmetic is modelled exactly by
  the rationals;
* raised ValueError exceptions become `Except.error` results carrying the
  message string built by the code;
* nx.betweenness_centrality with normalized=True is embedded by its
  documented semantics: the sum over ordered pairs of distinct endpoints
  of the fraction of shortest paths through the node, rescaled by
  1/((n-1)(n-2)) for n > 2 and left unscaled otherwise;
* the ProcessPoolExecutor loop of calculate_centrality that folds each
  per-component result dict into the zero-initialised score dict becomes a
  fold over the component list (the aggregation is order-independent, so a
  deterministic fold is a faithful model of the completion-order loop).
-/

set_option maxHeartbeats 1000000
set_option maxRecDepth 4000

/-- Undirected adjacency view of the loaded network: the node list of
`self.undirected_graph` together with its adjacency test. -/
structure Graph where
  nodes : List String
  adj : String → String → Bool

/-- Neighbours of a node: the nodes adjacent to `v`. -/
def neighbors (g : Graph) (v : String) : List String :=
  g.nodes.filter (fun u => g.adj v u)

/-- All walks with exactly `k` edges from `s` to `t` through the graph.
The walks of the least such `k` are exactly the shortest paths that
nx.all_shortest_paths enumerates. -/
def walksOfLength (g : Graph) : String → String → Nat → List (List String)
  | s, t, 0 => if s = t then [[s]] else []
  | s, t, k + 1 =>
      (neighbors g s).flatMap (fun u => (walksOfLength g u t k).map (fun p => s :: p))

/-- There is some walk from `s` to `t` (the pair is connected in the
undirected view). -/
def Reachable (g : Graph) (s t : String) : Prop :=
  ∃ k, walksOfLength g s t k ≠ []

/-- Embedding of find_all_shortest_paths (lines 126-148): list all shortest
paths between the two nodes, or `none` when the NetworkXNoPath exception is
caught.  A shortest path has at most (node count - 1) edges, so searching
edge counts below the node count is exhaustive. -/
def find_all_shortest_paths (g : Graph) (s t : String) : Option (List (List String)) :=
  match (List.range g.nodes.length).find? (fun k => !(walksOfLength g s t k).isEmpty) with
  | some k => some (walksOfLength g s t k)
  | none => none

/-- Python str.upper for the ASCII names handled by the analyzer. -/
def py_upper (s : String) : String := String.mk (s.data.map Char.toUpper)

/-- Python str.strip with no argument: drop leading and trailing
whitespace. -/
def py_strip (s : String) : String :=
  String.mk (((s.data.dropWhile Char.isWhitespace).reverse.dropWhile Char.isWhitespace).reverse)

/-- Maximal non-whitespace runs of a character list, the run being built up
in reverse in the accumulator. -/
def py_tokens_aux : List Char → List Char → List (List Char)
  | [], acc => if acc.isEmpty then [] else [acc.reverse]
  | c :: rest, acc =>
      if c.isWhitespace then
        if acc.isEmpty then py_tokens_aux rest []
        else acc.reverse :: py_tokens_aux rest []
      else py_tokens_aux rest (c :: acc)

/-- Python str.split with no separator: the maximal whitespace-free runs,
with no empty pieces. -/
def py_split (s : String) : List String :=
  (py_tokens_aux s.data []).map (fun l => String.mk l)

/-- The DEFAULT_BLACKLIST constant of the analyzer (lines 38-46). -/
def DEFAULT_BLACKLIST : List String :=
  ["ATP", "ADP", "NADH", "NAD+", "NADPH", "NADP+", "FADH2", "FAD",
   "Pyruvate", "Pi", "Phosphate", "PPi", "Pyrophosphate", "H+", "Proton",
   "CO2", "H2O", "O2"]

/-- Embedding of _is_blacklisted (lines 90-111): normalise the candidate
name to upper case and trim it; an exact match against a normalised entry
wins immediately; otherwise an entry matches when its non-empty whitespace
token set is a subset of the token set of the candidate. -/
def is_blacklisted (blacklist : List String) (node_name : String) : Bool :=
  if blacklist.any
      (fun item => decide (py_strip (py_upper node_name) = py_strip (py_upper item))) then
    true
  else
    blacklist.any (fun b =>
      !(py_split (py_strip (py_upper b))).isEmpty &&
        (py_split (py_strip (py_upper b))).all
          (fun w => decide (w ∈ py_split (py_strip (py_upper node_name)))))

/-- The default value of the `threshold` parameter of `__init__`
(line 48): 0.9. -/
def DEFAULT_THRESHOLD : ℚ := 9 / 10

/-- Modelled from the spec: the `identifyUbiquitous` operation of section
4.4 is absent from the source tree (`__init__` stores the threshold but no
method consumes it), so it is modelled from the words of the spec: a node
is ubiquitous iff its raw occurrence count across all analyzed paths
divided by the total number of paths found is at least the threshold, and
a zero total path count yields the empty set. -/
def identify_ubiquitous (frequencyCounts : List (String × Nat)) (totalPathCount : Nat)
    (threshold : ℚ) : List String :=
  if totalPathCount = 0 then []
  else
    (frequencyCounts.filter
      (fun e => decide (threshold ≤ (e.2 : ℚ) / (totalPathCount : ℚ)))).map (fun e => e.1)

/-- Association-table update with default 0: `table_add t k v` models
`d[k] += v` on a Python defaultdict keyed by (biopax type, node). -/
def table_add {α : Type} [Add α] :
    List ((String × String) × α) → (String × String) → α → List ((String × String) × α)
  | [], k, v => [(k, v)]
  | e :: rest, k, v => if e.1 = k then (e.1, e.2 + v) :: rest else e :: table_add rest k v

/-- Association-table lookup with default 0: models reading `d[k]` on a
Python defaultdict. -/
def table_get {α : Type} [Zero α] (tbl : List ((String × String) × α)) (k : String × String) : α :=
  match tbl.find? (fun e => decide (e.1 = k)) with
  | some e => e.2
  | none => 0

/-- The keys of an association table, in insertion order. -/
def tbl_keys {α : Type} (tbl : List ((String × String) × α)) : List (String × String) :=
  tbl.map (fun e => e.1)

/-- Raw occurrence count of a node across a list of paths. -/
def count_occurrences (n : String) (paths : List (List String)) : Nat :=
  (paths.map (fun p => p.count n)).sum

/-- Embedding of the counting loop of _compute_pair_frequencies (lines
219-225): raw occurrence counts of every (type, node) across the shortest
paths of one pair. -/
def pair_counts (types : String → String) (paths : List (List String)) :
    List ((String × String) × Nat) :=
  paths.foldl (fun tbl p => p.foldl (fun t n => table_add t (types n, n) 1) tbl) []

/-- Embedding of the normalisation loop of _compute_pair_frequencies
(lines 227-233): each raw count divided by the number of shortest paths
found for the pair. -/
def compute_pair_frequencies (types : String → String) (paths : List (List String)) :
    List ((String × String) × ℚ) :=
  (pair_counts types paths).map (fun e => (e.1, (e.2 : ℚ) / (paths.length : ℚ)))

/-- Dict store with overwrite: models the assignment
`self.pair_frequencies[pair] = normalized_pair_freq`. -/
def insert_pair :
    List ((String × String) × List ((String × String) × ℚ)) → (String × String) →
      List ((String × String) × ℚ) →
      List ((String × String) × List ((String × String) × ℚ))
  | [], pr, tbl => [(pr, tbl)]
  | e :: rest, pr, tbl => if e.1 = pr then (pr, tbl) :: rest else e :: insert_pair rest pr tbl

/-- One record of self.shortest_paths (lines 268-274). -/
structure PathRecord where
  start : String
  stop : String
  path : List String
  length : Nat

/-- The mutable per-run state of analyze_paths. -/
structure RunState where
  pairFrequencies : List ((String × String) × List ((String × String) × ℚ))
  totalPathsFound : Nat
  shortestPaths : List PathRecord
  analyzedNodes : List String

/-- The state at the start of a run: empty tables and counters. -/
def init_state : RunState := ⟨[], 0, [], []⟩

/-- Embedding of one iteration of the pair loop of analyze_paths (lines
260-277): a pair with no paths (the falsy None result) leaves the state
untouched, otherwise the frequencies, the counters, the path records and
the analysed node set are updated. -/
def process_pair (g : Graph) (types : String → String) (st : RunState)
    (pr : String × String) : RunState :=
  match find_all_shortest_paths g pr.1 pr.2 with
  | none => st
  | some paths =>
      if paths.isEmpty then st
      else
        { pairFrequencies :=
            insert_pair st.pairFrequencies pr (compute_pair_frequencies types paths)
          totalPathsFound := st.totalPathsFound + paths.length
          shortestPaths := st.shortestPaths ++
            paths.map (fun p => PathRecord.mk (p.headD "") (p.getLastD "") p (p.length - 1))
          analyzedNodes := paths.foldl
            (fun ns p => p.foldl (fun a n => if n ∈ a then a else a ++ [n]) ns)
            st.analyzedNodes }

/-- itertools.combinations(selected, 2), in iteration order. -/
def combinations2 : List String → List (String × String)
  | [] => []
  | x :: xs => xs.map (fun y => (x, y)) ++ combinations2 xs

/-- The run state after the pair loop of analyze_paths over the pairs of
the selected nodes, started from a fresh state. -/
def analysis_final (g : Graph) (types : String → String) (selected : List String) : RunState :=
  (combinations2 selected).foldl (process_pair g types) init_state

/-- Embedding of the global accumulation loop of analyze_paths (lines
279-282): every per-pair normalized frequency entry is folded into the
fresh global table. -/
def accumulate_global (pf : List ((String × String) × List ((String × String) × ℚ))) :
    List ((String × String) × ℚ) :=
  pf.foldl (fun acc e => e.2.foldl (fun a kv => table_add a kv.1 kv.2) acc) []

/-- Python str.join. -/
def py_join (sep : String) : List String → String
  | [] => ""
  | [x] => x
  | x :: y :: xs => x ++ sep ++ py_join sep (y :: xs)

/-- The missing-nodes part of the aggregated selection error (line 194). -/
def missing_nodes_message (missing : List String) : String :=
  "Nodes not found in network: " ++ py_join ", " missing

/-- The blacklisted-nodes part of the aggregated selection error
(lines 196-201). -/
def blacklisted_nodes_message (blk : List String) : String :=
  "Blacklisted nodes detected: " ++ py_join ", " blk ++
    "\nTo proceed, either:\n1. Remove the blacklisted nodes from your input\n2. Use --disable-blacklist to disable the blacklist"

/-- Embedding of the classification loop of select_nodes (lines 180-190):
every input entry is appended to exactly one of the missing, blacklisted or
valid lists, in input order. -/
def classify_nodes (graphNodes blacklist nodeList : List String) :
    List String × List String × List String :=
  nodeList.foldl
    (fun acc node =>
      if node ∉ graphNodes then (acc.1 ++ [node], acc.2.1, acc.2.2)
      else if is_blacklisted blacklist node then (acc.1, acc.2.1 ++ [node], acc.2.2)
      else (acc.1, acc.2.1, acc.2.2 ++ [node]))
    ([], [], [])

/-- The error_msgs list built by select_nodes (lines 192-201): one entry
per non-empty offending category. -/
def select_error_messages (graphNodes blacklist nodeList : List String) : List String :=
  (if (classify_nodes graphNodes blacklist nodeList).1.isEmpty then []
    else [missing_nodes_message (classify_nodes graphNodes blacklist nodeList).1]) ++
  (if (classify_nodes graphNodes blacklist nodeList).2.1.isEmpty then []
    else [blacklisted_nodes_message (classify_nodes graphNodes blacklist nodeList).2.1])

/-- Embedding of the explicit-list branch of select_nodes (lines 180-209):
aggregate both error messages, raise them joined if any, then guard against
an empty valid list. -/
def select_nodes_explicit (graphNodes blacklist nodeList : List String) :
    Except String (List String) :=
  if !(select_error_messages graphNodes blacklist nodeList).isEmpty then
    Except.error (py_join "\n" (select_error_messages graphNodes blacklist nodeList))
  else if (classify_nodes graphNodes blacklist nodeList).2.2.isEmpty then
    Except.error "No valid nodes remain for analysis"
  else Except.ok (classify_nodes graphNodes blacklist nodeList).2.2

/-- Models random.sample without replacement, deterministically as the
first k elements of the pool: random.sample returns k distinct elements of
the population, and which k is irrelevant to every property proved below. -/
def random_sample (pool : List String) (k : Nat) : List String := pool.take k

/-- Embedding of the random branch of select_nodes (lines 164-178): an
empty protein pool and an oversized request both raise, otherwise a sample
of exactly the requested size is returned. -/
def select_nodes_random (proteins : List String) (numNodes : Nat) :
    Except String (List String) :=
  if proteins.isEmpty then
    Except.error ("No valid protein nodes found after filtering blacklist. " ++
      "Use --disable-blacklist to include blacklisted nodes.")
  else if proteins.length < numNodes then
    Except.error ("Requested " ++ toString numNodes ++ " nodes but only " ++
      toString proteins.length ++ " valid protein nodes available")
  else Except.ok (random_sample proteins numNodes)

/-- Embedding of select_nodes (lines 150-209): dispatch on which of the
two arguments is provided, the random branch taking precedence. -/
def select_nodes (graphNodes proteins blacklist : List String) (numNodes : Option Nat)
    (nodeList : Option (List String)) : Except String (List String) :=
  match numNodes, nodeList with
  | none, none => Except.error "Either num_nodes or node_list must be provided"
  | some k, _ => select_nodes_random proteins k
  | none, some l => select_nodes_explicit graphNodes blacklist l

/-- Embedding of analyze_paths (lines 235-286): select the nodes, fold the
pair loop from a fresh state, then build the global frequency table; a
selection error aborts the run before any pair is analysed. -/
def analyze_paths (g : Graph) (types : String → String) (proteins blacklist : List String)
    (numNodes : Option Nat) (nodeList : Option (List String)) :
    Except String (RunState × List ((String × String) × ℚ)) :=
  match select_nodes g.nodes proteins blacklist numNodes nodeList with
  | Except.error e => Except.error e
  | Except.ok selected =>
      Except.ok (analysis_final g types selected,
        accumulate_global (analysis_final g types selected).pairFrequencies)

/-- One breadth step of reachability: a node set together with every
neighbour of its members. -/
def reach_step (g : Graph) (s : List String) : List String :=
  (s ++ s.flatMap (neighbors g)).dedup

/-- The nodes reachable from `s`: iterating the breadth step node-count
many times reaches the fixpoint. -/
def reach_list (g : Graph) (s : String) : List String :=
  (reach_step g)^[g.nodes.length] [s]

/-- The connected component of `s`, as the sublist of graph nodes
reachable from `s`. -/
def component_of (g : Graph) (s : String) : List String :=
  g.nodes.filter (fun v => decide (v ∈ reach_list g s))

/-- Embedding of list(nx.connected_components(analyzed_subgraph)) (line
315): the component of each node not already covered, in node order. -/
def connected_components (g : Graph) : List (List String) :=
  g.nodes.foldl
    (fun acc v => if acc.any (fun c => decide (v ∈ c)) then acc else acc ++ [component_of g v])
    []

/-- The subgraph induced on a node subset
(undirected_graph.subgraph / analyzed_subgraph.subgraph). -/
def induced_subgraph (g : Graph) (sel : List String) : Graph :=
  { nodes := g.nodes.filter (fun v => decide (v ∈ sel)),
    adj := fun a b => decide (a ∈ sel) && decide (b ∈ sel) && g.adj a b }

/-- The contribution of the ordered endpoint pair (s, t) to the betweenness
of v: the fraction of shortest s-t paths through v, or 0 when the pair is
not connected or v is an endpoint. -/
def pair_dependency (g : Graph) (v s t : String) : ℚ :=
  if s ≠ t ∧ s ≠ v ∧ t ≠ v then
    match find_all_shortest_paths g s t with
    | none => 0
    | some paths => ((paths.countP (fun p => decide (v ∈ p)) : Nat) : ℚ) / (paths.length : ℚ)
  else 0

/-- Embedding of nx.betweenness_centrality with normalized=True on an
undirected graph: the dependency sum over ordered endpoint pairs, rescaled
by 1 / ((n - 1) * (n - 2)) when the graph has more than two nodes and left
unscaled (hence zero) otherwise. -/
def betweenness_centrality (g : Graph) (v : String) : ℚ :=
  (if g.nodes.length ≤ 2 then 1
    else 1 / ((((g.nodes.length - 1) * (g.nodes.length - 2) : Nat)) : ℚ)) *
    (g.nodes.map (fun s => (g.nodes.map (fun t => pair_dependency g v s t)).sum)).sum

/-- Embedding of process_component (lines 317-340): single-node components
score 0.0, otherwise betweenness is computed on the induced subgraph. -/
def process_component (g : Graph) (comp : List String) : String → ℚ :=
  if comp.length ≤ 1 then fun _ => 0
  else betweenness_centrality (induced_subgraph g comp)

/-- process_component when the betweenness computation of some components
fails: the bare except of lines 338-340 degrades every node of a failing
component to score 0.0.  `fails` tells which components raise. -/
def process_component_failing (g : Graph) (fails : List String → Bool) (comp : List String) :
    String → ℚ :=
  if comp.length ≤ 1 then fun _ => 0
  else if fails comp then fun _ => 0
  else betweenness_centrality (induced_subgraph g comp)

/-- Embedding of the result-collection loop of calculate_centrality (lines
314 and 342-355): the score dict starts at 0.0 everywhere and each finished
component overwrites the scores of exactly its own nodes. -/
def recombine_components (f : List String → String → ℚ) (components : List (List String)) :
    String → ℚ :=
  components.foldl (fun acc comp v => if v ∈ comp then f comp v else acc v) (fun _ => 0)

/-- The disconnected branch of calculate_centrality (lines 312-358). -/
def calculate_centrality_components (g : Graph) : String → ℚ :=
  recombine_components (process_component g) (connected_components g)

/-- The disconnected branch of calculate_centrality when the computation of
some components fails. -/
def calculate_centrality_components_failing (g : Graph) (fails : List String → Bool) :
    String → ℚ :=
  recombine_components (process_component_failing g fails) (connected_components g)

/-- Edges of a concrete disconnected scoped subgraph: a path A - B - C plus
a separate edge D - E. -/
def g5_edges : List (String × String) := [("A", "B"), ("B", "C"), ("D", "E")]

/-- Concrete disconnected scoped subgraph on five nodes. -/
def g5 : Graph :=
  { nodes := ["A", "B", "C", "D", "E"],
    adj := fun a b => decide ((a, b) ∈ g5_edges ∨ (b, a) ∈ g5_edges) }

/-- Concrete graph with an isolated node A and an edge D - E. -/
def gW : Graph :=
  { nodes := ["A", "D", "E"],
    adj := fun a b => decide ((a, b) ∈ ([("D", "E")] : List (String × String)) ∨
      (b, a) ∈ ([("D", "E")] : List (String × String))) }

/-- A constant node-type map for concrete runs. -/
def typesW : String → String := fun _ => "Protein"

/-- Concrete graph for the explicit-selection run: two nodes, no edges. -/
def g7 : Graph := { nodes := ["ALPHA", "ATP"], adj := fun _ _ => false }

/-- Claim C10: for every node s of the graph, requesting all shortest paths
from s to itself returns exactly the single-node path, of length 0. -/
theorem self_pair_single_trivial_path (g : Graph) (s : String) (hs : s ∈ g.nodes) :
    find_all_shortest_paths g s s = some [[s]] ∧ ([s] : List String).length - 1 = 0 := by
  constructor
  · have hlen : g.nodes.length ≠ 0 := by
      intro h
      rw [List.length_eq_zero] at h
      simp [h] at hs
    obtain ⟨m, hm⟩ := Nat.exists_eq_succ_of_ne_zero hlen
    have h0 : walksOfLength g s s 0 = [[s]] := by simp [walksOfLength]
    unfold find_all_shortest_paths
    rw [hm, List.range_succ_eq_map, List.find?_cons_of_pos _ (by simp [h0])]
    simp [h0]
  · rfl

/-- Claim C10 witness: a concrete graph and node. -/
theorem self_pair_single_trivial_path_witness :
    ("A" ∈ (Graph.mk ["A", "B"] (fun _ _ => false)).nodes) ∧
      (find_all_shortest_paths (Graph.mk ["A", "B"] (fun _ _ => false)) "A" "A"
          = some [["A"]] ∧ (["A"] : List String).length - 1 = 0) :=
  ⟨by decide, self_pair_single_trivial_path (Graph.mk ["A", "B"] (fun _ _ => false)) "A" (by decide)⟩

/-- Claim C4: a name is blacklisted iff its normalised form exactly equals
the normalised form of some entry, or the whitespace token set of some
entry is non-empty and a subset of the token set of the name; nothing else
(in particular no literal substring match) triggers a match. -/
theorem is_blacklisted_characterization (blacklist : List String) (name : String) :
    is_blacklisted blacklist name = true ↔
      (∃ e ∈ blacklist, py_strip (py_upper name) = py_strip (py_upper e)) ∨
      (∃ e ∈ blacklist, py_split (py_strip (py_upper e)) ≠ [] ∧
        ∀ w ∈ py_split (py_strip (py_upper e)), w ∈ py_split (py_strip (py_upper name))) := by
  unfold is_blacklisted
  cases hex : blacklist.any
      (fun item => decide (py_strip (py_upper name) = py_strip (py_upper item))) with
  | true =>
      rw [if_pos rfl]
      simp only [true_iff]
      left
      rw [List.any_eq_true] at hex
      obtain ⟨e, he, hd⟩ := hex
      exact ⟨e, he, of_decide_eq_true hd⟩
  | false =>
      rw [if_neg (by simp)]
      constructor
      · intro h
        right
        rw [List.any_eq_true] at h
        obtain ⟨e, he, hb⟩ := h
        rw [Bool.and_eq_true] at hb
        refine ⟨e, he, ?_, ?_⟩
        · intro hnil
          rw [hnil] at hb
          simp at hb
        · intro w hw
          have h2 := hb.2
          rw [List.all_eq_true] at h2
          exact of_decide_eq_true (h2 w hw)
      · rintro (⟨e, he, heq⟩ | ⟨e, he, hne, hsub⟩)
        · exfalso
          have hc : blacklist.any
              (fun item => decide (py_strip (py_upper name) = py_strip (py_upper item))) = true :=
            List.any_eq_true.mpr ⟨e, he, decide_eq_true heq⟩
          rw [hex] at hc
          exact Bool.false_ne_true hc
        · rw [List.any_eq_true]
          refine ⟨e, he, ?_⟩
          rw [Bool.and_eq_true]
          refine ⟨?_, ?_⟩
          · rw [Bool.not_eq_true']
            cases hsplit : py_split (py_strip (py_upper e)) with
            | nil => exact absurd hsplit hne
            | cons a l => simp
          · rw [List.all_eq_true]
            intro w hw
            exact decide_eq_true (hsub w hw)

/-- Claim C2: a node is classified ubiquitous iff its raw occurrence count
divided by the total path count reaches the threshold; a zero total path
count yields the empty set; the default threshold is 0.9. -/
theorem identify_ubiquitous_spec (counts : List (String × Nat)) (total : Nat) (threshold : ℚ) :
    (total = 0 → identify_ubiquitous counts total threshold = []) ∧
    (total ≠ 0 → ∀ n : String,
      n ∈ identify_ubiquitous counts total threshold ↔
        ∃ c : Nat, (n, c) ∈ counts ∧ threshold ≤ (c : ℚ) / (total : ℚ)) ∧
    DEFAULT_THRESHOLD = 9 / 10 := by
  refine ⟨fun h => by simp [identify_ubiquitous, h], fun h n => ?_, rfl⟩
  unfold identify_ubiquitous
  rw [if_neg h]
  simp only [List.mem_map, List.mem_filter, decide_eq_true_eq]
  constructor
  · rintro ⟨⟨a, c⟩, ⟨hmem, hth⟩, rfl⟩
    exact ⟨c, hmem, hth⟩
  · rintro ⟨c, hmem, hth⟩
    exact ⟨(n, c), ⟨hmem, hth⟩, rfl⟩

/-- Claim C2 witness: with 10 paths in total, a node seen in 9 of them is
ubiquitous at the default threshold, and a zero path total yields the empty
set. -/
theorem identify_ubiquitous_spec_witness :
    (identify_ubiquitous [("ATP", 9), ("GLC", 1)] 0 (9 / 10) = []) ∧
    ((10 : Nat) ≠ 0 ∧
      ("ATP" ∈ identify_ubiquitous [("ATP", 9), ("GLC", 1)] 10 (9 / 10) ↔
        ∃ c : Nat, ("ATP", c) ∈ [("ATP", 9), ("GLC", 1)] ∧ (9 / 10 : ℚ) ≤ (c : ℚ) / (10 : ℚ))) :=
  ⟨(identify_ubiquitous_spec [("ATP", 9), ("GLC", 1)] 0 (9 / 10)).1 rfl,
   by decide,
   ((identify_ubiquitous_spec [("ATP", 9), ("GLC", 1)] 10 (9 / 10)).2.1 (by decide) "ATP")⟩

/-- Lookup on an empty table yields the default 0. -/
theorem table_get_nil {α : Type} [Zero α] (q : String × String) :
    table_get ([] : List ((String × String) × α)) q = 0 := rfl

/-- Lookup on a cons cell: the head wins when its key matches. -/
theorem table_get_cons {α : Type} [Zero α] (e : (String × String) × α)
    (rest : List ((String × String) × α)) (q : String × String) :
    table_get (e :: rest) q = if e.1 = q then e.2 else table_get rest q := by
  by_cases h : e.1 = q
  · unfold table_get
    rw [List.find?_cons_of_pos _ (by simpa using h), if_pos h]
  · unfold table_get
    rw [List.find?_cons_of_neg _ (by simpa using h), if_neg h]

/-- A defaultdict increment changes exactly the incremented key. -/
theorem table_get_add {α : Type} [AddZeroClass α] (tbl : List ((String × String) × α))
    (k q : String × String) (v : α) :
    table_get (table_add tbl k v) q = table_get tbl q + (if k = q then v else 0) := by
  induction tbl with
  | nil =>
      show table_get [(k, v)] q = table_get ([] : List ((String × String) × α)) q + _
      rw [table_get_cons, table_get_nil]
      show (if k = q then v else table_get ([] : List ((String × String) × α)) q)
        = 0 + (if k = q then v else 0)
      by_cases h : k = q
      · rw [if_pos h, if_pos h, zero_add]
      · rw [if_neg h, if_neg h, table_get_nil, zero_add]
  | cons e rest ih =>
    show table_get (if e.1 = k then (e.1, e.2 + v) :: rest else e :: table_add rest k v) q = _
    by_cases hek : e.1 = k
    · rw [if_pos hek, table_get_cons, table_get_cons]
      by_cases hq : e.1 = q
      · rw [if_pos hq, if_pos hq, if_pos (hek ▸ hq)]
      · rw [if_neg hq, if_neg hq, if_neg (fun h => hq (hek.symm ▸ h : e.1 = q)), add_zero]
    · rw [if_neg hek, table_get_cons, table_get_cons, ih]
      by_cases hq : e.1 = q
      · rw [if_pos hq, if_pos hq, if_neg (fun h : k = q => hek (hq.symm ▸ h.symm ▸ rfl)), add_zero]
      · rw [if_neg hq, if_neg hq]

/-- Folding the nodes of one path into the count table adds exactly the
occurrence count of each node in that path. -/
theorem table_get_path_fold (types : String → String) (p : List String)
    (acc : List ((String × String) × Nat)) (n : String) :
    table_get (p.foldl (fun t m => table_add t (types m, m) 1) acc) (types n, n)
      = table_get acc (types n, n) + p.count n := by
  induction p generalizing acc with
  | nil => simp
  | cons m rest ih =>
      rw [List.foldl_cons, ih, table_get_add]
      by_cases h : m = n
      · subst h
        rw [if_pos rfl, List.count_cons_self]
        omega
      · rw [if_neg (fun hh : (types m, m) = (types n, n) => h (congrArg Prod.snd hh)),
          List.count_cons_of_ne (fun hh => h hh.symm), add_zero]

/-- The count table of one pair holds exactly the raw occurrence count of
every node across the pair paths. -/
theorem table_get_pair_counts (types : String → String) (paths : List (List String))
    (n : String) :
    table_get (pair_counts types paths) (types n, n) = count_occurrences n paths := by
  suffices h : ∀ acc : List ((String × String) × Nat),
      table_get
          (paths.foldl (fun tbl p => p.foldl (fun t m => table_add t (types m, m) 1) tbl) acc)
          (types n, n)
        = table_get acc (types n, n) + count_occurrences n paths by
    have h0 := h []
    rw [table_get_nil, zero_add] at h0
    exact h0
  induction paths with
  | nil => intro acc; simp [count_occurrences]
  | cons p rest ih =>
      intro acc
      rw [List.foldl_cons, ih, table_get_path_fold]
      show _ = table_get acc (types n, n) + (((p :: rest).map (fun q => q.count n)).sum)
      rw [List.map_cons, List.sum_cons]
      show _ + ((rest.map fun q => q.count n).sum) = _
      omega

/-- Dividing every table value divides every lookup (absent keys stay 0). -/
theorem table_get_map_div (tbl : List ((String × String) × Nat)) (d : ℚ)
    (q : String × String) :
    table_get (tbl.map (fun e => (e.1, (e.2 : ℚ) / d))) q
      = ((table_get tbl q : Nat) : ℚ) / d := by
  induction tbl with
  | nil => rw [List.map_nil, table_get_nil, table_get_nil, Nat.cast_zero, zero_div]
  | cons e rest ih =>
      rw [List.map_cons, table_get_cons, table_get_cons]
      by_cases h : e.1 = q
      · rw [if_pos h, if_pos h]
      · rw [if_neg h, if_neg h, ih]

/-- Claim C5: for a pair with at least one shortest path, the normalized
frequency of every node is its raw occurrence count across the pair paths
divided by the number of paths for the pair, and a node appearing exactly
once in every path scores exactly 1 regardless of path lengths. -/
theorem pair_frequency_normalized_by_path_count (types : String → String)
    (paths : List (List String)) (n : String) (hne : paths ≠ []) :
    table_get (compute_pair_frequencies types paths) (types n, n)
      = (count_occurrences n paths : ℚ) / (paths.length : ℚ) ∧
    ((∀ p ∈ paths, p.count n = 1) →
      table_get (compute_pair_frequencies types paths) (types n, n) = 1) := by
  have hmain : table_get (compute_pair_frequencies types paths) (types n, n)
      = (count_occurrences n paths : ℚ) / (paths.length : ℚ) := by
    unfold compute_pair_frequencies
    rw [table_get_map_div, table_get_pair_counts]
  refine ⟨hmain, fun hall => ?_⟩
  have haux : ∀ l : List (List String), (∀ p ∈ l, p.count n = 1) →
      (l.map (fun p => p.count n)).sum = l.length := by
    intro l
    induction l with
    | nil => intro _; rfl
    | cons p rest ih =>
        intro hp
        rw [List.map_cons, List.sum_cons, List.length_cons, hp p (by simp),
          ih (fun q hq => hp q (by simp [hq]))]
        omega
  have hcount : count_occurrences n paths = paths.length := haux paths hall
  have hlen : (paths.length : ℚ) ≠ 0 := by
    rwa [Ne, Nat.cast_eq_zero, List.length_eq_zero]
  rw [hmain, hcount, div_self hlen]

/-- Claim C5 witness: a node appearing once in each of two paths of
different lengths scores exactly 1. -/
theorem pair_frequency_normalized_by_path_count_witness :
    (([["A", "X", "B"], ["A", "Y", "X", "B"]] : List (List String)) ≠ []) ∧
    (table_get (compute_pair_frequencies typesW [["A", "X", "B"], ["A", "Y", "X", "B"]])
        (typesW "X", "X")
      = (count_occurrences "X" [["A", "X", "B"], ["A", "Y", "X", "B"]] : ℚ) /
        (([["A", "X", "B"], ["A", "Y", "X", "B"]] : List (List String)).length : ℚ) ∧
     ((∀ p ∈ ([["A", "X", "B"], ["A", "Y", "X", "B"]] : List (List String)), p.count "X" = 1) →
       table_get (compute_pair_frequencies typesW [["A", "X", "B"], ["A", "Y", "X", "B"]])
          (typesW "X", "X") = 1)) :=
  ⟨by decide,
   pair_frequency_normalized_by_path_count typesW [["A", "X", "B"], ["A", "Y", "X", "B"]] "X"
     (by decide)⟩

/-- Lookup of a key absent from the table yields 0. -/
theorem table_get_eq_zero_of_not_mem_keys {α : Type} [Zero α]
    (tbl : List ((String × String) × α)) (q : String × String) (h : q ∉ tbl_keys tbl) :
    table_get tbl q = 0 := by
  induction tbl with
  | nil => rfl
  | cons e rest ih =>
      simp only [tbl_keys, List.map_cons, List.mem_cons, not_or] at h
      rw [table_get_cons, if_neg (fun hh => h.1 hh.symm)]
      exact ih h.2

/-- Folding one table with distinct keys into an accumulator adds its
lookup pointwise. -/
theorem table_get_fold_add (tbl acc : List ((String × String) × ℚ)) (q : String × String)
    (hnd : (tbl_keys tbl).Nodup) :
    table_get (tbl.foldl (fun a kv => table_add a kv.1 kv.2) acc) q
      = table_get acc q + table_get tbl q := by
  induction tbl generalizing acc with
  | nil => rw [List.foldl_nil, table_get_nil, add_zero]
  | cons e rest ih =>
      simp only [tbl_keys, List.map_cons, List.nodup_cons] at hnd
      rw [List.foldl_cons, ih _ hnd.2, table_get_add, table_get_cons]
      by_cases h : e.1 = q
      · rw [if_pos h, if_pos h,
          table_get_eq_zero_of_not_mem_keys rest q (fun hm => hnd.1 (h ▸ hm)), add_zero]
      · rw [if_neg h, if_neg h, add_zero]

/-- The global table built by the accumulation loop looks up to the sum of
the per-pair lookups, provided each per-pair table has distinct keys. -/
theorem table_get_accumulate_global
    (pf : List ((String × String) × List ((String × String) × ℚ))) (q : String × String)
    (hnd : ∀ e ∈ pf, (tbl_keys e.2).Nodup) :
    table_get (accumulate_global pf) q = (pf.map (fun e => table_get e.2 q)).sum := by
  suffices h : ∀ acc : List ((String × String) × ℚ),
      table_get (pf.foldl (fun acc e => e.2.foldl (fun a kv => table_add a kv.1 kv.2) acc) acc) q
        = table_get acc q + (pf.map (fun e => table_get e.2 q)).sum by
    have h0 := h []
    rw [table_get_nil, zero_add] at h0
    exact h0
  induction pf with
  | nil => intro acc; rw [List.foldl_nil, List.map_nil, List.sum_nil, add_zero]
  | cons e rest ih =>
      intro acc
      rw [List.foldl_cons,
        ih (fun f hf => hnd f (List.mem_cons_of_mem e hf)),
        table_get_fold_add _ _ _ (hnd e (List.mem_cons_self e rest)),
        List.map_cons, List.sum_cons, add_assoc]

/-- The sum of all per-pair lookups equals the sum restricted to the pairs
whose table contains the key (the others contribute 0). -/
theorem sum_map_filter_of_mem_keys
    (pf : List ((String × String) × List ((String × String) × ℚ))) (q : String × String) :
    (pf.map (fun e => table_get e.2 q)).sum
      = ((pf.filter (fun e => decide (q ∈ tbl_keys e.2))).map (fun e => table_get e.2 q)).sum := by
  induction pf with
  | nil => rfl
  | cons e rest ih =>
      by_cases h : q ∈ tbl_keys e.2
      · rw [List.map_cons, List.sum_cons, List.filter_cons_of_pos (by simpa using h),
          List.map_cons, List.sum_cons, ih]
      · rw [List.map_cons, List.sum_cons, List.filter_cons_of_neg (by simpa using h),
          table_get_eq_zero_of_not_mem_keys _ _ h, zero_add, ih]

/-- Membership in the keys of an updated table. -/
theorem mem_tbl_keys_table_add {α : Type} [Add α] (tbl : List ((String × String) × α))
    (k q : String × String) (v : α) :
    q ∈ tbl_keys (table_add tbl k v) ↔ q ∈ tbl_keys tbl ∨ q = k := by
  induction tbl with
  | nil =>
      show q ∈ tbl_keys [(k, v)] ↔ _
      simp [tbl_keys]
  | cons e rest ih =>
      show q ∈ tbl_keys (if e.1 = k then (e.1, e.2 + v) :: rest else e :: table_add rest k v) ↔ _
      by_cases h : e.1 = k
      · rw [if_pos h]
        simp only [tbl_keys, List.map_cons, List.mem_cons]
        constructor
        · rintro (hq | hq)
          · exact Or.inl (Or.inl hq)
          · exact Or.inl (Or.inr hq)
        · rintro ((hq | hq) | hq)
          · exact Or.inl hq
          · exact Or.inr hq
          · exact Or.inl (h ▸ hq)
      · rw [if_neg h]
        simp only [tbl_keys, List.map_cons, List.mem_cons] at ih ⊢
        rw [ih]
        tauto

/-- A defaultdict increment keeps the table keys distinct. -/
theorem nodup_tbl_keys_table_add {α : Type} [Add α] (tbl : List ((String × String) × α))
    (k : String × String) (v : α) (h : (tbl_keys tbl).Nodup) :
    (tbl_keys (table_add tbl k v)).Nodup := by
  induction tbl with
  | nil =>
      show (tbl_keys [(k, v)]).Nodup
      simp [tbl_keys]
  | cons e rest ih =>
      simp only [tbl_keys, List.map_cons, List.nodup_cons] at h
      show (tbl_keys (if e.1 = k then (e.1, e.2 + v) :: rest else e :: table_add rest k v)).Nodup
      by_cases hek : e.1 = k
      · rw [if_pos hek]
        simp only [tbl_keys, List.map_cons, List.nodup_cons]
        exact ⟨h.1, h.2⟩
      · rw [if_neg hek]
        simp only [tbl_keys, List.map_cons, List.nodup_cons]
        refine ⟨?_, ih h.2⟩
        rw [show List.map (fun e => e.1) (table_add rest k v)
            = tbl_keys (table_add rest k v) from rfl, mem_tbl_keys_table_add]
        rintro (hm | hm)
        · exact h.1 hm
        · exact hek hm

/-- Folding the nodes of one path into a count table keeps the keys
distinct. -/
theorem nodup_tbl_keys_node_fold (types : String → String) (p : List String)
    (acc : List ((String × String) × Nat)) (h : (tbl_keys acc).Nodup) :
    (tbl_keys (p.foldl (fun t n => table_add t (types n, n) 1) acc)).Nodup := by
  induction p generalizing acc with
  | nil => exact h
  | cons n rest ih =>
      rw [List.foldl_cons]
      exact ih _ (nodup_tbl_keys_table_add _ _ _ h)

/-- The per-pair count table has distinct keys. -/
theorem nodup_tbl_keys_pair_counts (types : String → String) (paths : List (List String)) :
    (tbl_keys (pair_counts types paths)).Nodup := by
  suffices h : ∀ acc : List ((String × String) × Nat), (tbl_keys acc).Nodup →
      (tbl_keys (paths.foldl
          (fun tbl p => p.foldl (fun t n => table_add t (types n, n) 1) tbl) acc)).Nodup by
    exact h [] (by simp [tbl_keys])
  induction paths with
  | nil => intro acc h; exact h
  | cons p rest ih =>
      intro acc h
      rw [List.foldl_cons]
      exact ih _ (nodup_tbl_keys_node_fold types p acc h)

/-- Normalisation preserves the keys of the count table. -/
theorem tbl_keys_compute_pair_frequencies (types : String → String)
    (paths : List (List String)) :
    tbl_keys (compute_pair_frequencies types paths) = tbl_keys (pair_counts types paths) := by
  unfold compute_pair_frequencies
  simp [tbl_keys, List.map_map]

/-- Every entry of a dict store with overwrite is an old entry or the new
one. -/
theorem mem_insert_pair (pf : List ((String × String) × List ((String × String) × ℚ)))
    (pr : String × String) (tbl : List ((String × String) × ℚ))
    (e : (String × String) × List ((String × String) × ℚ))
    (h : e ∈ insert_pair pf pr tbl) : e ∈ pf ∨ e = (pr, tbl) := by
  induction pf with
  | nil =>
      right
      simpa [insert_pair] using h
  | cons f rest ih =>
      rw [show insert_pair (f :: rest) pr tbl
          = if f.1 = pr then (pr, tbl) :: rest else f :: insert_pair rest pr tbl from rfl] at h
      by_cases hf : f.1 = pr
      · rw [if_pos hf, List.mem_cons] at h
        rcases h with h | h
        · exact Or.inr h
        · exact Or.inl (List.mem_cons_of_mem f h)
      · rw [if_neg hf, List.mem_cons] at h
        rcases h with h | h
        · exact Or.inl (h ▸ List.mem_cons_self f rest)
        · rcases ih h with h2 | h2
          · exact Or.inl (List.mem_cons_of_mem f h2)
          · exact Or.inr h2

/-- Every per-pair table stored during a run has distinct keys. -/
theorem nodup_tbl_keys_pairFrequencies (g : Graph) (types : String → String)
    (selected : List String) :
    ∀ e ∈ (analysis_final g types selected).pairFrequencies, (tbl_keys e.2).Nodup := by
  suffices h : ∀ (l : List (String × String)) (st : RunState),
      (∀ e ∈ st.pairFrequencies, (tbl_keys e.2).Nodup) →
      ∀ e ∈ (l.foldl (process_pair g types) st).pairFrequencies, (tbl_keys e.2).Nodup by
    exact h (combinations2 selected) init_state (by intro e he; simp [init_state] at he)
  intro l
  induction l with
  | nil => intro st h; exact h
  | cons pr rest ih =>
      intro st h
      rw [List.foldl_cons]
      apply ih
      intro e he
      unfold process_pair at he
      split at he
      · exact h e he
      · split at he
        · exact h e he
        · rcases mem_insert_pair _ _ _ _ he with h1 | h1
          · exact h e h1
          · rw [h1]
            show (tbl_keys (compute_pair_frequencies types _)).Nodup
            rw [tbl_keys_compute_pair_frequencies]
            exact nodup_tbl_keys_pair_counts types _

/-- Claim C6: after a run, every global frequency entry is the sum of the
per-pair normalized frequency entries of that key over the pairs whose
table contains it. -/
theorem global_frequency_is_sum_of_pair_frequencies (g : Graph) (types : String → String)
    (selected : List String) (k : String × String) :
    table_get (accumulate_global (analysis_final g types selected).pairFrequencies) k
      = (((analysis_final g types selected).pairFrequencies.filter
            (fun e => decide (k ∈ tbl_keys e.2))).map (fun e => table_get e.2 k)).sum := by
  rw [table_get_accumulate_global _ _ (nodup_tbl_keys_pairFrequencies g types selected),
    sum_map_filter_of_mem_keys]

/-- A found shortest-path list is never empty. -/
theorem find_all_shortest_paths_ne_nil (g : Graph) (s t : String) (ps : List (List String))
    (h : find_all_shortest_paths g s t = some ps) : ps ≠ [] := by
  unfold find_all_shortest_paths at h
  cases hf : (List.range g.nodes.length).find? (fun k => !(walksOfLength g s t k).isEmpty) with
  | none =>
      rw [hf] at h
      cases h
  | some k =>
      rw [hf, Option.some_inj] at h
      have hp := List.find?_some hf
      intro hnil
      rw [hnil] at h
      rw [h] at hp
      simp at hp

/-- Membership in the keys of a dict store with overwrite. -/
theorem mem_tbl_keys_insert_pair (pf : List ((String × String) × List ((String × String) × ℚ)))
    (pr : String × String) (tbl : List ((String × String) × ℚ)) (q : String × String) :
    q ∈ tbl_keys (insert_pair pf pr tbl) ↔ q ∈ tbl_keys pf ∨ q = pr := by
  induction pf with
  | nil =>
      show q ∈ tbl_keys [(pr, tbl)] ↔ _
      simp [tbl_keys]
  | cons f rest ih =>
      show q ∈ tbl_keys (if f.1 = pr then (pr, tbl) :: rest else f :: insert_pair rest pr tbl) ↔ _
      by_cases hf : f.1 = pr
      · rw [if_pos hf]
        simp only [tbl_keys, List.map_cons, List.mem_cons]
        constructor
        · rintro (hq | hq)
          · exact Or.inr hq
          · exact Or.inl (Or.inr hq)
        · rintro ((hq | hq) | hq)
          · exact Or.inl (hf ▸ hq)
          · exact Or.inr hq
          · exact Or.inl hq
      · rw [if_neg hf]
        simp only [tbl_keys, List.map_cons, List.mem_cons] at ih ⊢
        show q = f.1 ∨ q ∈ List.map (fun e => e.1) (insert_pair rest pr tbl)
          ↔ (q = f.1 ∨ q ∈ List.map (fun e => e.1) rest) ∨ q = pr
        rw [ih]
        tauto

/-- A key present after one pair step was present before or is the pair
just processed, the latter only when paths were found for it. -/
theorem mem_keys_process_pair (g : Graph) (types : String → String) (st : RunState)
    (pr q : String × String)
    (h : q ∈ tbl_keys (process_pair g types st pr).pairFrequencies) :
    q ∈ tbl_keys st.pairFrequencies
      ∨ (q = pr ∧ ∃ ps, find_all_shortest_paths g pr.1 pr.2 = some ps) := by
  unfold process_pair at h
  split at h
  · exact Or.inl h
  · rename_i paths heq
    split at h
    · exact Or.inl h
    · have h2 := (mem_tbl_keys_insert_pair st.pairFrequencies pr
        (compute_pair_frequencies types paths) q).mp h
      rcases h2 with h2 | h2
      · exact Or.inl h2
      · exact Or.inr ⟨h2, paths, heq⟩

/-- One pair step never removes a recorded pair. -/
theorem mem_keys_process_pair_mono (g : Graph) (types : String → String) (st : RunState)
    (pr q : String × String) (h : q ∈ tbl_keys st.pairFrequencies) :
    q ∈ tbl_keys (process_pair g types st pr).pairFrequencies := by
  unfold process_pair
  split
  · exact h
  · split
    · exact h
    · exact (mem_tbl_keys_insert_pair _ _ _ q).mpr (Or.inl h)

/-- A pair for which paths were found is recorded by its own step. -/
theorem mem_keys_process_pair_self (g : Graph) (types : String → String) (st : RunState)
    (pr : String × String) (ps : List (List String))
    (hf : find_all_shortest_paths g pr.1 pr.2 = some ps) :
    pr ∈ tbl_keys (process_pair g types st pr).pairFrequencies := by
  have hne : ps ≠ [] := find_all_shortest_paths_ne_nil g pr.1 pr.2 ps hf
  unfold process_pair
  split
  · rename_i heq
    rw [hf] at heq
    cases heq
  · rename_i paths heq
    rw [hf, Option.some_inj] at heq
    subst heq
    split
    · rename_i hp
      exact absurd (List.isEmpty_iff.mp hp) hne
    · exact (mem_tbl_keys_insert_pair _ _ _ pr).mpr (Or.inr rfl)

/-- A key recorded by the pair loop was in the initial state or had paths
found for it. -/
theorem mem_keys_fold_process_pair (g : Graph) (types : String → String)
    (l : List (String × String)) (st : RunState) (q : String × String)
    (h : q ∈ tbl_keys ((l.foldl (process_pair g types) st).pairFrequencies)) :
    q ∈ tbl_keys st.pairFrequencies
      ∨ ∃ ps, find_all_shortest_paths g q.1 q.2 = some ps := by
  induction l generalizing st with
  | nil => exact Or.inl h
  | cons pr rest ih =>
      rw [List.foldl_cons] at h
      rcases ih _ h with h1 | h1
      · rcases mem_keys_process_pair g types st pr q h1 with h2 | h2
        · exact Or.inl h2
        · rcases h2 with ⟨rfl, ps, hps⟩
          exact Or.inr ⟨ps, hps⟩
      · exact Or.inr h1

/-- The pair loop never removes a recorded pair. -/
theorem mem_keys_fold_mono (g : Graph) (types : String → String)
    (l : List (String × String)) (st : RunState) (q : String × String)
    (h : q ∈ tbl_keys st.pairFrequencies) :
    q ∈ tbl_keys ((l.foldl (process_pair g types) st).pairFrequencies) := by
  induction l generalizing st with
  | nil => exact h
  | cons pr rest ih =>
      rw [List.foldl_cons]
      exact ih _ (mem_keys_process_pair_mono g types st pr q h)

/-- Every analysed pair with found paths ends up recorded by the loop. -/
theorem mem_keys_fold_of_found (g : Graph) (types : String → String)
    (l : List (String × String)) (st : RunState) (q : String × String)
    (ps : List (List String)) (hq : q ∈ l)
    (hf : find_all_shortest_paths g q.1 q.2 = some ps) :
    q ∈ tbl_keys ((l.foldl (process_pair g types) st).pairFrequencies) := by
  induction l generalizing st with
  | nil => cases hq
  | cons pr rest ih =>
      rw [List.foldl_cons]
      rcases List.mem_cons.mp hq with h1 | h1
      · subst h1
        exact mem_keys_fold_mono g types rest _ q
          (mem_keys_process_pair_self g types st q ps hf)
      · exact ih _ h1

/-- Claim C3: a selected pair with no connecting path gets the non-error
empty result, is not recorded in the pair frequency table even as a zero
entry, and every other analysed pair with found paths is still recorded. -/
theorem no_path_pair_skipped (g : Graph) (types : String → String) (selected : List String)
    (a b : String) (hnp : ¬ Reachable g a b) :
    find_all_shortest_paths g a b = none ∧
    (a, b) ∉ tbl_keys (analysis_final g types selected).pairFrequencies ∧
    (∀ c d ps, (c, d) ∈ combinations2 selected →
      find_all_shortest_paths g c d = some ps →
      (c, d) ∈ tbl_keys (analysis_final g types selected).pairFrequencies) := by
  have hwalk : ∀ k, walksOfLength g a b k = [] := by
    intro k
    by_contra hk
    exact hnp ⟨k, hk⟩
  have hnone : find_all_shortest_paths g a b = none := by
    unfold find_all_shortest_paths
    have hfind : (List.range g.nodes.length).find?
        (fun k => !(walksOfLength g a b k).isEmpty) = none := by
      rw [List.find?_eq_none]
      intro k _
      rw [hwalk k]
      simp
    rw [hfind]
  refine ⟨hnone, ?_, ?_⟩
  · intro hmem
    rcases mem_keys_fold_process_pair g types (combinations2 selected) init_state (a, b) hmem
      with h1 | h1
    · simp [init_state, tbl_keys] at h1
    · rcases h1 with ⟨ps, hps⟩
      rw [show (((a, b) : String × String).1 : String) = a from rfl,
        show (((a, b) : String × String).2 : String) = b from rfl, hnone] at hps
      cases hps
  · intro c d ps hcd hf
    exact mem_keys_fold_of_found g types (combinations2 selected) init_state (c, d) ps hcd hf

/-- In the concrete graph gW there is no walk from the isolated node A to
D, whatever the length. -/
theorem gW_no_walk (k : Nat) : walksOfLength gW "A" "D" k = [] := by
  cases k with
  | zero => rfl
  | succ k => rfl

/-- Claim C3 witness: in gW the selected pair (A, D) is unreachable and
unrecorded while the connected pair (D, E) is recorded. -/
theorem no_path_pair_skipped_witness :
    (¬ Reachable gW "A" "D") ∧
    (find_all_shortest_paths gW "A" "D" = none ∧
     ("A", "D") ∉ tbl_keys (analysis_final gW typesW ["A", "D", "E"]).pairFrequencies ∧
     (∀ c d ps, (c, d) ∈ combinations2 ["A", "D", "E"] →
       find_all_shortest_paths gW c d = some ps →
       (c, d) ∈ tbl_keys (analysis_final gW typesW ["A", "D", "E"]).pairFrequencies)) :=
  ⟨fun h => Exists.elim h (fun k hk => hk (gW_no_walk k)),
   no_path_pair_skipped gW typesW ["A", "D", "E"] "A" "D"
     (fun h => Exists.elim h (fun k hk => hk (gW_no_walk k)))⟩

/-- String append concatenates the character data. -/
theorem string_data_append (a b : String) : (a ++ b).data = a.data ++ b.data := rfl

/-- Every member of a joined list occurs inside the join. -/
theorem within_py_join (sep : String) (l : List String) (x : String) (hx : x ∈ l) :
    x.data <:+: (py_join sep l).data := by
  induction l with
  | nil => cases hx
  | cons y ys ih =>
      cases ys with
      | nil =>
          rcases List.mem_cons.mp hx with h | h
          · subst h
            exact List.infix_refl _
          · cases h
      | cons z zs =>
          rcases List.mem_cons.mp hx with h | h
          · subst h
            show x.data <:+: (x ++ sep ++ py_join sep (z :: zs)).data
            rw [string_data_append, string_data_append, List.append_assoc]
            exact (List.prefix_append _ _).isInfix
          · have hi := ih h
            show x.data <:+: (y ++ sep ++ py_join sep (z :: zs)).data
            rw [string_data_append, string_data_append]
            exact hi.trans (List.suffix_append _ _).isInfix

/-- Occurrence is preserved by prepending text. -/
theorem within_append_left {l m : List Char} (h : l <:+: m) (pre : List Char) :
    l <:+: pre ++ m :=
  h.trans (List.suffix_append pre m).isInfix

/-- Occurrence is preserved by appending text. -/
theorem within_append_right {l m : List Char} (h : l <:+: m) (suf : List Char) :
    l <:+: m ++ suf :=
  h.trans (List.prefix_append m suf).isInfix

/-- The classification loop computes the three filters of the input list:
every entry lands in exactly one bucket according to the two tests. -/
theorem classify_nodes_eq (graphNodes blacklist nodeList : List String) :
    classify_nodes graphNodes blacklist nodeList =
      (nodeList.filter (fun n => decide (n ∉ graphNodes)),
       nodeList.filter (fun n => decide (n ∈ graphNodes) && is_blacklisted blacklist n),
       nodeList.filter (fun n => decide (n ∈ graphNodes) && !is_blacklisted blacklist n)) := by
  suffices h : ∀ (l : List String) (m b v : List String),
      l.foldl
          (fun acc node =>
            if node ∉ graphNodes then (acc.1 ++ [node], acc.2.1, acc.2.2)
            else if is_blacklisted blacklist node then (acc.1, acc.2.1 ++ [node], acc.2.2)
            else (acc.1, acc.2.1, acc.2.2 ++ [node]))
          (m, b, v)
        = (m ++ l.filter (fun n => decide (n ∉ graphNodes)),
           b ++ l.filter (fun n => decide (n ∈ graphNodes) && is_blacklisted blacklist n),
           v ++ l.filter (fun n => decide (n ∈ graphNodes) && !is_blacklisted blacklist n)) by
    have h0 := h nodeList [] [] []
    simpa [classify_nodes] using h0
  intro l
  induction l with
  | nil => intro m b v; simp
  | cons n rest ih =>
      intro m b v
      rw [List.foldl_cons]
      by_cases h1 : n ∈ graphNodes
      · by_cases h2 : is_blacklisted blacklist n
        · rw [if_neg (fun hc => hc h1), if_pos h2, ih]
          simp [List.filter_cons, h1, h2, List.append_assoc]
        · rw [if_neg (fun hc => hc h1), if_neg h2, ih]
          simp [List.filter_cons, h1, h2, List.append_assoc]
      · rw [if_pos h1, ih]
        simp [List.filter_cons, h1, List.append_assoc]

/-- The outer dispatch with an explicit list runs the explicit branch. -/
theorem select_nodes_none_some (graphNodes proteins blacklist : List String)
    (l : List String) :
    select_nodes graphNodes proteins blacklist none (some l)
      = select_nodes_explicit graphNodes blacklist l := rfl

/-- A selection error aborts analyze_paths with the same message before any
pair is processed. -/
theorem analyze_paths_error_of_select_error (g : Graph) (types : String → String)
    (proteins blacklist : List String) (numNodes : Option Nat)
    (nodeList : Option (List String)) (msg : String)
    (h : select_nodes g.nodes proteins blacklist numNodes nodeList = Except.error msg) :
    analyze_paths g types proteins blacklist numNodes nodeList = Except.error msg := by
  unfold analyze_paths
  rw [h]

/-- Claim C7: explicit-list selection classifies every entry into exactly
one of missing, blacklisted or valid (the three buckets are the three
filters of the input list by mutually exclusive tests), and when at least
one entry is missing or blacklisted the selection raises a single
aggregated error, which aborts analyze_paths before any path analysis and
whose message mentions every offending node of both categories. -/
theorem explicit_selection_classifies_and_aggregates (g : Graph) (types : String → String)
    (proteins blacklist nodeList : List String) :
    (classify_nodes g.nodes blacklist nodeList).1
        = nodeList.filter (fun n => decide (n ∉ g.nodes)) ∧
    (classify_nodes g.nodes blacklist nodeList).2.1
        = nodeList.filter (fun n => decide (n ∈ g.nodes) && is_blacklisted blacklist n) ∧
    (classify_nodes g.nodes blacklist nodeList).2.2
        = nodeList.filter (fun n => decide (n ∈ g.nodes) && !is_blacklisted blacklist n) ∧
    ((classify_nodes g.nodes blacklist nodeList).1 ≠ [] ∨
        (classify_nodes g.nodes blacklist nodeList).2.1 ≠ [] →
      ∃ msg, select_nodes_explicit g.nodes blacklist nodeList = Except.error msg ∧
        analyze_paths g types proteins blacklist none (some nodeList) = Except.error msg ∧
        ∀ n ∈ (classify_nodes g.nodes blacklist nodeList).1
            ++ (classify_nodes g.nodes blacklist nodeList).2.1,
          n.data <:+: msg.data) := by
  refine ⟨by rw [classify_nodes_eq], by rw [classify_nodes_eq], by rw [classify_nodes_eq], ?_⟩
  intro hbad
  have hmsgs : select_error_messages g.nodes blacklist nodeList ≠ [] := by
    rcases hbad with hb | hb
    · unfold select_error_messages
      rw [if_neg (by simpa [List.isEmpty_iff] using hb)]
      simp
    · unfold select_error_messages
      intro heq
      rcases List.append_eq_nil.mp heq with ⟨h1, h2⟩
      by_cases hbe : (classify_nodes g.nodes blacklist nodeList).2.1.isEmpty
      · exact hb (List.isEmpty_iff.mp hbe)
      · rw [if_neg hbe] at h2
        cases h2
  have hsel : select_nodes_explicit g.nodes blacklist nodeList
      = Except.error (py_join "\n" (select_error_messages g.nodes blacklist nodeList)) := by
    unfold select_nodes_explicit
    rw [if_pos (by simpa using hmsgs)]
  refine ⟨py_join "\n" (select_error_messages g.nodes blacklist nodeList), hsel,
    analyze_paths_error_of_select_error g types proteins blacklist none (some nodeList) _ hsel,
    ?_⟩
  intro n hn
  rcases List.mem_append.mp hn with hn | hn
  · have hmne : (classify_nodes g.nodes blacklist nodeList).1 ≠ [] := by
      intro hh
      rw [hh] at hn
      cases hn
    have h1 : n.data
        <:+: (missing_nodes_message (classify_nodes g.nodes blacklist nodeList).1).data := by
      unfold missing_nodes_message
      rw [string_data_append]
      exact within_append_left (within_py_join ", " _ n hn) _
    by_cases hbe : (classify_nodes g.nodes blacklist nodeList).2.1.isEmpty
    · have hmeq : select_error_messages g.nodes blacklist nodeList
          = [missing_nodes_message (classify_nodes g.nodes blacklist nodeList).1] := by
        unfold select_error_messages
        rw [if_neg (by simpa [List.isEmpty_iff] using hmne), if_pos hbe, List.append_nil]
      rw [hmeq]
      exact h1
    · have hmeq : select_error_messages g.nodes blacklist nodeList
          = [missing_nodes_message (classify_nodes g.nodes blacklist nodeList).1,
             blacklisted_nodes_message (classify_nodes g.nodes blacklist nodeList).2.1] := by
        unfold select_error_messages
        rw [if_neg (by simpa [List.isEmpty_iff] using hmne), if_neg hbe]
        rfl
      rw [hmeq]
      show n.data <:+:
        (missing_nodes_message (classify_nodes g.nodes blacklist nodeList).1 ++ "\n" ++
          blacklisted_nodes_message (classify_nodes g.nodes blacklist nodeList).2.1).data
      rw [string_data_append, string_data_append]
      exact within_append_right (within_append_right h1 _) _
  · have hbne : (classify_nodes g.nodes blacklist nodeList).2.1 ≠ [] := by
      intro hh
      rw [hh] at hn
      cases hn
    have h1 : n.data
        <:+: (blacklisted_nodes_message (classify_nodes g.nodes blacklist nodeList).2.1).data := by
      unfold blacklisted_nodes_message
      rw [string_data_append, string_data_append]
      exact within_append_right (within_append_left (within_py_join ", " _ n hn) _) _
    by_cases hme : (classify_nodes g.nodes blacklist nodeList).1.isEmpty
    · have hmeq : select_error_messages g.nodes blacklist nodeList
          = [blacklisted_nodes_message (classify_nodes g.nodes blacklist nodeList).2.1] := by
        unfold select_error_messages
        rw [if_pos hme, if_neg (by simpa [List.isEmpty_iff] using hbne)]
        rfl
      rw [hmeq]
      exact h1
    · have hmeq : select_error_messages g.nodes blacklist nodeList
          = [missing_nodes_message (classify_nodes g.nodes blacklist nodeList).1,
             blacklisted_nodes_message (classify_nodes g.nodes blacklist nodeList).2.1] := by
        unfold select_error_messages
        rw [if_neg hme, if_neg (by simpa [List.isEmpty_iff] using hbne)]
        rfl
      rw [hmeq]
      show n.data <:+:
        (missing_nodes_message (classify_nodes g.nodes blacklist nodeList).1 ++ "\n" ++
          blacklisted_nodes_message (classify_nodes g.nodes blacklist nodeList).2.1).data
      rw [string_data_append, string_data_append]
      exact within_append_left h1 _

/-- Claim C7 witness: one missing name and one blacklisted name produce a
single aggregated error mentioning both. -/
theorem explicit_selection_classifies_and_aggregates_witness :
    ((classify_nodes g7.nodes ["ATP"] ["GHOST", "ATP", "ALPHA"]).1 ≠ [] ∨
      (classify_nodes g7.nodes ["ATP"] ["GHOST", "ATP", "ALPHA"]).2.1 ≠ []) ∧
    (∃ msg, select_nodes_explicit g7.nodes ["ATP"] ["GHOST", "ATP", "ALPHA"]
        = Except.error msg ∧
      analyze_paths g7 typesW [] ["ATP"] none (some ["GHOST", "ATP", "ALPHA"])
        = Except.error msg ∧
      ∀ n ∈ (classify_nodes g7.nodes ["ATP"] ["GHOST", "ATP", "ALPHA"]).1
          ++ (classify_nodes g7.nodes ["ATP"] ["GHOST", "ATP", "ALPHA"]).2.1,
        n.data <:+: msg.data) :=
  ⟨by decide,
   (explicit_selection_classifies_and_aggregates g7 typesW [] ["ATP"]
      ["GHOST", "ATP", "ALPHA"]).2.2.2 (by decide)⟩

/-- Claim C8: random selection raises on an empty pool with a message
suggesting disabling the blacklist, raises rather than silently clamping
when the requested count exceeds the pool size, and otherwise returns
exactly the requested number of distinct eligible nodes. -/
theorem random_selection_policy (proteins : List String) (numNodes : Nat) :
    (proteins = [] →
      ∃ msg, select_nodes_random proteins numNodes = Except.error msg ∧
        ("--disable-blacklist").data <:+: msg.data) ∧
    (proteins ≠ [] → proteins.length < numNodes →
      ∃ msg, select_nodes_random proteins numNodes = Except.error msg) ∧
    (proteins ≠ [] → numNodes ≤ proteins.length → proteins.Nodup →
      select_nodes_random proteins numNodes = Except.ok (random_sample proteins numNodes) ∧
      (random_sample proteins numNodes).length = numNodes ∧
      (random_sample proteins numNodes).Nodup ∧
      ∀ x ∈ random_sample proteins numNodes, x ∈ proteins) := by
  refine ⟨?_, ?_, ?_⟩
  · intro h
    refine ⟨"No valid protein nodes found after filtering blacklist. " ++
      "Use --disable-blacklist to include blacklisted nodes.", ?_, by decide⟩
    unfold select_nodes_random
    rw [if_pos (by simp [h])]
  · intro hne hlt
    refine ⟨"Requested " ++ toString numNodes ++ " nodes but only " ++
      toString proteins.length ++ " valid protein nodes available", ?_⟩
    unfold select_nodes_random
    rw [if_neg (by simp [List.isEmpty_iff, hne]), if_pos hlt]
  · intro hne hle hnd
    refine ⟨?_, ?_, ?_, ?_⟩
    · unfold select_nodes_random
      rw [if_neg (by simp [List.isEmpty_iff, hne]), if_neg (by omega)]
    · unfold random_sample
      rw [List.length_take]
      omega
    · exact hnd.sublist (List.take_sublist numNodes proteins)
    · intro x hx
      exact List.take_subset numNodes proteins hx

/-- Claim C8 witness: the three behaviours at concrete pools. -/
theorem random_selection_policy_witness :
    (∃ msg, select_nodes_random [] 1 = Except.error msg ∧
       ("--disable-blacklist").data <:+: msg.data) ∧
    (∃ msg, select_nodes_random ["P1", "P2"] 3 = Except.error msg) ∧
    (select_nodes_random ["P1", "P2"] 1 = Except.ok (random_sample ["P1", "P2"] 1) ∧
     (random_sample ["P1", "P2"] 1).length = 1 ∧
     (random_sample ["P1", "P2"] 1).Nodup ∧
     ∀ x ∈ random_sample ["P1", "P2"] 1, x ∈ (["P1", "P2"] : List String)) :=
  ⟨(random_selection_policy [] 1).1 rfl,
   (random_selection_policy ["P1", "P2"] 3).2.1 (by decide) (by decide),
   (random_selection_policy ["P1", "P2"] 1).2.2 (by decide) (by decide) (by decide)⟩

/-- Components not containing a node leave its accumulated score alone. -/
theorem recombine_untouched (f : List String → String → ℚ) (l : List (List String))
    (acc : String → ℚ) (v : String) (hl : ∀ b ∈ l, v ∉ b) :
    l.foldl (fun acc comp v => if v ∈ comp then f comp v else acc v) acc v = acc v := by
  induction l generalizing acc with
  | nil => rfl
  | cons d ds ih =>
      rw [List.foldl_cons, ih _ (fun b hb => hl b (List.mem_cons_of_mem d hb))]
      show (if v ∈ d then f d v else acc v) = acc v
      rw [if_neg (hl d (List.mem_cons_self d ds))]

/-- With pairwise-disjoint components, the result-collection fold assigns
each node exactly the value computed for the component containing it. -/
theorem recombine_fold_eq (f : List String → String → ℚ) (components : List (List String))
    (acc : String → ℚ) (comp : List String) (v : String)
    (hdisj : components.Pairwise (fun a b => ∀ x ∈ a, x ∉ b))
    (hc : comp ∈ components) (hv : v ∈ comp) :
    components.foldl (fun acc comp v => if v ∈ comp then f comp v else acc v) acc v
      = f comp v := by
  induction components generalizing acc with
  | nil => cases hc
  | cons c rest ih =>
      rw [List.pairwise_cons] at hdisj
      rw [List.foldl_cons]
      rcases List.mem_cons.mp hc with h1 | h1
      · subst h1
        have hrest : ∀ b ∈ rest, v ∉ b := fun b hb => hdisj.1 b hb v hv
        rw [recombine_untouched f rest _ v hrest]
        show (if v ∈ comp then f comp v else acc v) = f comp v
        rw [if_pos hv]
      · exact ih _ hdisj.2 h1

/-- The recombination of per-component results over disjoint components
gives each node the value of its own component. -/
theorem recombine_components_eq (f : List String → String → ℚ)
    (components : List (List String)) (comp : List String) (v : String)
    (hdisj : components.Pairwise (fun a b => ∀ x ∈ a, x ∉ b))
    (hc : comp ∈ components) (hv : v ∈ comp) :
    recombine_components f components v = f comp v :=
  recombine_fold_eq f components (fun _ => 0) comp v hdisj hc hv

/-- Claim C1 (amended): with the connected components pairwise disjoint,
the final score of a node of the disconnected branch is exactly the
intra-component normalized betweenness computed by process_component (0.0
for components of one node); no scaling by component size over total scoped
node count is applied. -/
theorem centrality_recombination_unscaled (g : Graph) (comp : List String) (v : String)
    (hdisj : (connected_components g).Pairwise (fun a b => ∀ x ∈ a, x ∉ b))
    (hc : comp ∈ connected_components g) (hv : v ∈ comp) :
    calculate_centrality_components g v = process_component g comp v :=
  recombine_components_eq (process_component g) (connected_components g) comp v hdisj hc hv

/-- Claim C1 counterexample: in the concrete disconnected scoped subgraph
g5 (a 3-node path plus a 2-node edge), node B of the 3-node component gets
final score 1, its unscaled intra-component betweenness, not that
betweenness multiplied by (component size / total scoped node count)
= 3/5. -/
theorem centrality_recombination_scaling_counterexample :
    component_of g5 "B" ∈ connected_components g5 ∧
    "B" ∈ component_of g5 "B" ∧
    calculate_centrality_components g5 "B"
      ≠ betweenness_centrality (induced_subgraph g5 (component_of g5 "B")) "B" *
          (((component_of g5 "B").length : ℚ) / (g5.nodes.length : ℚ)) :=
  ⟨by decide, by decide, by with_unfolding_all decide⟩

/-- Claim C1 witness: the amended statement at the concrete subgraph g5. -/
theorem centrality_recombination_unscaled_witness :
    ((connected_components g5).Pairwise (fun a b => ∀ x ∈ a, x ∉ b) ∧
      ["A", "B", "C"] ∈ connected_components g5 ∧
      "B" ∈ (["A", "B", "C"] : List String)) ∧
    calculate_centrality_components g5 "B" = process_component g5 ["A", "B", "C"] "B" :=
  ⟨⟨by decide, by decide, by decide⟩,
   centrality_recombination_unscaled g5 ["A", "B", "C"] "B" (by decide) (by decide) (by decide)⟩

/-- Claim C9: when the betweenness computation of one component fails,
every node of that component gets score 0.0, and the score of every node
of any non-failing component is identical to the failure-free run. -/
theorem component_failure_isolated (g : Graph) (fails : List String → Bool)
    (comp comp2 : List String) (v v2 : String)
    (hdisj : (connected_components g).Pairwise (fun a b => ∀ x ∈ a, x ∉ b))
    (hc : comp ∈ connected_components g) (hv : v ∈ comp) (hfail : fails comp = true)
    (hc2 : comp2 ∈ connected_components g) (hv2 : v2 ∈ comp2)
    (hok : fails comp2 = false) :
    calculate_centrality_components_failing g fails v = 0 ∧
    calculate_centrality_components_failing g fails v2
      = calculate_centrality_components g v2 := by
  constructor
  · rw [show calculate_centrality_components_failing g fails v
        = process_component_failing g fails comp v from
      recombine_components_eq _ _ comp v hdisj hc hv]
    unfold process_component_failing
    by_cases hle : comp.length ≤ 1
    · rw [if_pos hle]
    · rw [if_neg hle, if_pos hfail]
  · rw [show calculate_centrality_components_failing g fails v2
        = process_component_failing g fails comp2 v2 from
      recombine_components_eq _ _ comp2 v2 hdisj hc2 hv2,
      show calculate_centrality_components g v2 = process_component g comp2 v2 from
      recombine_components_eq _ _ comp2 v2 hdisj hc2 hv2]
    unfold process_component_failing process_component
    by_cases hle : comp2.length ≤ 1
    · rw [if_pos hle, if_pos hle]
    · rw [if_neg hle, if_neg (by simp [hok]), if_neg hle]

/-- Claim C9 witness: in g5, failing the 2-node component zeroes D while
B of the sibling 3-node component keeps its failure-free score. -/
theorem component_failure_isolated_witness :
    ((connected_components g5).Pairwise (fun a b => ∀ x ∈ a, x ∉ b) ∧
     ["D", "E"] ∈ connected_components g5 ∧ "D" ∈ (["D", "E"] : List String) ∧
     (fun c => decide ("D" ∈ c)) ["D", "E"] = true ∧
     ["A", "B", "C"] ∈ connected_components g5 ∧ "B" ∈ (["A", "B", "C"] : List String) ∧
     (fun c => decide ("D" ∈ c)) ["A", "B", "C"] = false) ∧
    (calculate_centrality_components_failing g5 (fun c => decide ("D" ∈ c)) "D" = 0 ∧
     calculate_centrality_components_failing g5 (fun c => decide ("D" ∈ c)) "B"
       = calculate_centrality_components g5 "B") :=
  ⟨⟨by decide, by decide, by decide, by decide, by decide, by decide, by decide⟩,
   component_failure_isolated g5 (fun c => decide ("D" ∈ c)) ["D", "E"] ["A", "B", "C"]
     "D" "B" (by decide) (by decide) (by decide) (by decide) (by decide) (by decide)
     (by decide)⟩
